import Mathlib

/-!
Verification of the rerun-fails orchestration core (src/cmd/rerunfails.go)
against its natural-language specification.

Go strings are modelled as lists of characters, machine integers as Nat,
Go errors as Option values, and the external environment (subprocess
outcomes, the event stream, file-system results) as an explicit oracle fed
to the orchestration loop.  Functions present in src/cmd/rerunfails.go are
translated from that source; collaborators that live in the repository but
outside src/ (the testjson and internal/coverprofile packages, and
cmd.ExitCodeWithDefault) are modelled from the spec, as marked on each
definition.  Go standard-library behaviour (regexp.QuoteMeta, strings.Split)
is translated from the standard library's documented definition.
-/

set_option maxHeartbeats 1000000

namespace GoTestSum

/-- Go strings are modelled as lists of characters. -/
abbrev GoString := List Char

/-- Modelled from the spec: testjson.TestName (the testjson package is not
under src/): a string, optionally hierarchical, a root name optionally
followed by slash-separated subtest segments. -/
abbrev TestName := GoString

/-- Modelled from the spec: a name is a subtest iff it contains the
separator character. -/
def TestName.IsSubTest (t : TestName) : Bool := t.contains '/'

/-- Modelled from the spec: testjson.TestName.Name returns the full name
string. -/
def TestName.Name (t : TestName) : GoString := t

/-- Model of Go strings.Split with a single-character separator, as used by
goTestRunFlagForTestCase: the accumulator holds the current segment in
reverse. -/
def splitOnAux (sep : Char) : List Char → List Char → List (List Char)
  | [], acc => [acc.reverse]
  | c :: rest, acc =>
    if c = sep then acc.reverse :: splitOnAux sep rest []
    else splitOnAux sep rest (c :: acc)

/-- Model of Go strings.Split with a single-character separator. -/
def splitOn (sep : Char) (s : List Char) : List (List Char) := splitOnAux sep s []

/-- The metacharacters escaped by Go regexp.QuoteMeta (the specialBytes set
of regexp/regexp.go).  The space character is not among them. -/
def specialBytes : List Char :=
  [ '\\', '.', '+', '*', '?', '(', ')', '|', '[', ']', '\x7b', '\x7d', '^', '$' ]

/-- Model of Go regexp.QuoteMeta: each metacharacter is preceded by a
backslash; every other character passes through unchanged. -/
def quoteMeta (s : List Char) : List Char :=
  s.flatMap (fun c => if specialBytes.contains c then [ '\\', c] else [c])

/-- One anchored, escaped path segment of the subtest selection pattern:
a caret, the escaped segment, a dollar. -/
def anchorSegment (p : List Char) : List Char := '^' :: (quoteMeta p ++ [ '$' ])

/-- Joining path segments with the slash separator, mirroring the
WriteByte calls of the builder loop in goTestRunFlagForTestCase. -/
def joinSlash : List (List Char) → List Char
  | [] => []
  | [p] => p
  | p :: rest => p ++ '/' :: joinSlash rest

/-- Model of goTestRunFlagForTestCase (src/cmd/rerunfails.go lines 193-209):
for a subtest, each slash-separated segment is anchored and regex-escaped
independently and the segments are rejoined with slashes; for a root name
the whole escaped name is anchored. -/
def goTestRunFlagForTestCase (test : TestName) : GoString :=
  if TestName.IsSubTest test then
    "-test.run=".data ++ joinSlash ((splitOn '/' test).map anchorSegment)
  else
    "-test.run=^".data ++ quoteMeta (TestName.Name test) ++ [ '$' ]

/-- Modelled from the spec: identity of a test case is the pair of package
and hierarchical test name (testjson.TestCase is not under src/). -/
structure TestCase where
  Package : GoString
  Test : TestName
  deriving DecidableEq

/-- Model of rerunOpts (src/cmd/rerunfails.go lines 16-20). -/
structure rerunOpts where
  runFlag : GoString
  pkg : GoString
  coverprofileFlag : GoString
  deriving DecidableEq

/-- Model of rerunOpts.Args (lines 22-34): each non-empty field contributes
one argument, in field order. -/
def rerunOpts.Args (o : rerunOpts) : List GoString :=
  (if o.runFlag ≠ [] then [o.runFlag] else []) ++
    (if o.pkg ≠ [] then [o.pkg] else []) ++
      (if o.coverprofileFlag ≠ [] then [o.coverprofileFlag] else [])

/-- Model of rerunOpts.withCoverprofile (lines 36-39). -/
def rerunOpts.withCoverprofile (o : rerunOpts) (coverprofile : GoString) : rerunOpts :=
  { o with coverprofileFlag := "-coverprofile=".data ++ coverprofile }

/-- Model of newRerunOptsFromTestCase (lines 41-47). -/
def newRerunOptsFromTestCase (tc : TestCase) : rerunOpts :=
  { runFlag := goTestRunFlagForTestCase tc.Test
    pkg := tc.Package
    coverprofileFlag := [] }

/-- Modelled from the spec: the actions of a structured test event relevant
to this layer (testjson.Action is not under src/). -/
inductive GoAction where
  | run
  | pass
  | fail
  | skip
  | output
  deriving DecidableEq

/-- Modelled from the spec: a decoded structured test event (testjson
.TestEvent is not under src/): a package, a test name (empty on
package-level events) and an action. -/
structure TestEvent where
  Package : GoString
  Test : TestName
  Action : GoAction
  deriving DecidableEq

/-- Modelled from the spec: a package-level event is one that carries no
test name (testjson.TestEvent.PackageEvent is not under src/). -/
def TestEvent.PackageEvent (e : TestEvent) : Bool := e.Test.isEmpty

/-- Modelled from the spec: the per-package view of an Execution, exposing
its failing and passing cases in the order they were recorded. -/
structure GoPackage where
  Failed : List TestCase
  Passed : List TestCase
  deriving DecidableEq

/-- The zero value of a package view: no recorded cases. -/
def emptyPackage : GoPackage := { Failed := [], Passed := [] }

/-- Modelled from the spec: the Execution aggregate of one full run
(testjson.Execution is not under src/): queryable by package, exposing
failing cases, passing cases, protocol-level errors, and whether a
suspected unrecovered panic occurred. -/
structure Execution where
  packages : List (GoString × GoPackage)
  errors : List GoString
  panicked : Bool
  deriving DecidableEq

/-- Modelled from the spec: querying the Execution by package name; an
unknown package yields the zero view. -/
def Execution.Package (e : Execution) (name : GoString) : GoPackage :=
  match e.packages.find? (fun p => p.1 == name) with
  | some p => p.2
  | none => emptyPackage

/-- Modelled from the spec: all failing cases of the Execution, package by
package. -/
def Execution.Failed (e : Execution) : List TestCase :=
  e.packages.flatMap (fun p => p.2.Failed)

/-- Modelled from the spec: the protocol-level errors recorded by the
Execution. -/
def Execution.Errors (e : Execution) : List GoString := e.errors

/-- Modelled from the spec: whether the Execution suspects an unrecovered
panic. -/
def Execution.HasPanic (e : Execution) : Bool := e.panicked

/-- Modelled from the spec: the last-failed TestCase for a test name within
the package view (testjson.Package.LastFailedByName is not under src/); the
zero TestCase when no such failure exists. -/
def GoPackage.LastFailedByName (p : GoPackage) (name : GoString) : TestCase :=
  match (p.Failed.filter (fun tc => TestName.Name tc.Test == name)).getLast? with
  | some tc => tc
  | none => { Package := [], Test := [] }

/-- Updating one named entry of the package map, inserting the zero view
first when the package is new. -/
def updatePackages (ps : List (GoString × GoPackage)) (name : GoString)
    (f : GoPackage → GoPackage) : List (GoString × GoPackage) :=
  if ps.any (fun p => p.1 == name) then
    ps.map (fun p => if p.1 == name then (p.1, f p.2) else p)
  else ps ++ [(name, f emptyPackage)]

/-- Modelled from the spec: how the event scanner mutates the shared
Execution aggregate once per decoded event, before invoking the handler
(testjson.ScanTestOutput and Execution.add are not under src/): a fail
event on a test appends that TestCase to its package's failing cases, a
pass event appends it to the passing cases, any other event leaves the case
lists unchanged. -/
def Execution.add (e : Execution) (ev : TestEvent) : Execution :=
  if TestEvent.PackageEvent ev then e
  else
    match ev.Action with
    | GoAction.fail =>
      { e with packages := (updatePackages e.packages ev.Package
          (fun p => { p with Failed := p.Failed ++ [{ Package := ev.Package, Test := ev.Test }] })) }
    | GoAction.pass =>
      { e with packages := (updatePackages e.packages ev.Package
          (fun p => { p with Passed := p.Passed ++ [{ Package := ev.Package, Test := ev.Test }] })) }
    | _ => e

/-- Model of failureRecorder (src/cmd/rerunfails.go lines 166-170).  The
wrapped downstream EventHandler is modelled by the list of events it has
observed; subprocess exit errors are modelled by their exit code. -/
structure failureRecorder where
  handler : List TestEvent
  failures : List TestCase
  lastErr : Option Nat
  deriving DecidableEq

/-- Model of newFailureRecorder (lines 172-174): wraps a downstream handler
with empty failures and no recorded error. -/
def newFailureRecorder (handler : List TestEvent) : failureRecorder :=
  { handler := handler, failures := [], lastErr := none }

/-- Model of newFailureRecorderFromExecution (lines 176-178): seeds the
failures from the Execution's failing cases. -/
def newFailureRecorderFromExecution (exec : Execution) : failureRecorder :=
  { handler := [], failures := Execution.Failed exec, lastErr := none }

/-- Model of failureRecorder.Event (lines 180-187): on a non-package fail
event the package's last-failed case for that test name is appended to the
failure list; every event is then forwarded to the wrapped handler. -/
def failureRecorder.Event (r : failureRecorder) (event : TestEvent)
    (execution : Execution) : failureRecorder :=
  let r2 :=
    if !TestEvent.PackageEvent event && event.Action == GoAction.fail then
      { r with failures := r.failures ++
          [GoPackage.LastFailedByName (Execution.Package execution event.Package) event.Test] }
    else r
  { r2 with handler := r2.handler ++ [event] }

/-- Model of failureRecorder.count (lines 189-191). -/
def failureRecorder.count (r : failureRecorder) : Nat := r.failures.length

/-- Modelled from the spec: the normalized exit code of a completed
subprocess, nil treated as 0 (ExitCodeWithDefault is not under src/).  An
exit error is modelled by the exit code it carries. -/
def ExitCodeWithDefault : Option Nat → Nat
  | none => 0
  | some c => c

/-- The three abort reasons of the outcome classifier, standing for the
three error messages built by hasErrors. -/
inductive AbortReason where
  | priorErrors
  | unexpectedExitCode
  | suspectedPanic
  deriving DecidableEq

/-- Model of hasErrors (src/cmd/rerunfails.go lines 152-164): the switch
checks recorded protocol errors, then the normalized exit code, then the
suspected panic, in that order. -/
def hasErrors (err : Option Nat) (exec : Execution) : Option AbortReason :=
  if (Execution.Errors exec).length > 0 then some AbortReason.priorErrors
  else if ExitCodeWithDefault err > 1 then some AbortReason.unexpectedExitCode
  else if Execution.HasPanic exec then some AbortReason.suspectedPanic
  else none

/-- Modelled from the spec: testjson.FilterFailedUnique (not under src/)
deduplicates the failing cases by their (package, test) identity, keeping
first occurrences. -/
def filterUniqueAux : List TestCase → List TestCase → List TestCase
  | [], _ => []
  | tc :: rest, seen =>
    if seen.contains tc then filterUniqueAux rest seen
    else tc :: filterUniqueAux rest (tc :: seen)

/-- Modelled from the spec: the unique-leaf rerun policy. -/
def FilterFailedUnique (tcs : List TestCase) : List TestCase := filterUniqueAux tcs []

/-- Model of rerunFailsFilter (src/cmd/rerunfails.go lines 51-64): the
root-only branch keeps exactly the cases whose name is not a subtest; the
default branch is FilterFailedUnique. -/
def rerunFailsFilter (runRootCases : Bool) : List TestCase → List TestCase :=
  if runRootCases then
    fun tcs => tcs.filter (fun tc => !TestName.IsSubTest tc.Test)
  else FilterFailedUnique

/-- The identity of a coverage block: file and source span (the spec's
block key). -/
structure BlockKey where
  fileName : GoString
  startLine : Nat
  startCol : Nat
  endLine : Nat
  endCol : Nat
  deriving DecidableEq

/-- A coverage-profile block: its key plus the statement and execution
counts (cover.ProfileBlock together with its profile's file name). -/
structure CoverBlock where
  key : BlockKey
  numStmt : Nat
  count : Nat
  deriving DecidableEq

/-- Folding one block into an accumulated profile: when the key is already
present its count is increased by the new block's count, otherwise the
block is appended unchanged. -/
def combineInto (acc : List CoverBlock) (b : CoverBlock) : List CoverBlock :=
  if acc.any (fun x => x.key == b.key) then
    acc.map (fun x => if x.key == b.key then { x with count := x.count + b.count } else x)
  else acc ++ [b]

/-- Modelled from the spec: coverprofile.Combine (internal/coverprofile is
not under src/): the merged result holds one block per distinct key, counts
summed over every profile in which the key appears, blocks with a unique
key passing through unchanged; the result replaces the main profile. -/
def Combine (main extra : List CoverBlock) : List CoverBlock :=
  (main ++ extra).foldl combineInto []

/-- The total execution count recorded for one block key across a list of
blocks. -/
def keyCount (bs : List CoverBlock) (k : BlockKey) : Nat :=
  ((bs.filter (fun b => b.key == k)).map CoverBlock.count).sum

/-- How many blocks of the list carry the given key. -/
def keyMult (bs : List CoverBlock) (k : BlockKey) : Nat :=
  (bs.filter (fun b => b.key == k)).length

/-- The observable outcome the environment produces for one rerun
invocation: whether the executor failed to start, the decoded events the
scanner delivers, whether scanning failed, the exit error of the process
wait (none on a clean exit), the parsed temporary coverage profile (none
when parsing fails) and whether deleting the temporary file succeeded. -/
structure InvocationOutcome where
  startErr : Bool
  events : List TestEvent
  scanErr : Bool
  exitErr : Option Nat
  parsed : Option (List CoverBlock)
  removeOk : Bool
  deriving DecidableEq

/-- The errors rerunFailed can return: executor start failure, scan
failure, coverage parse failure, coverage temporary-file delete failure, a
classifier abort, or the surfaced last subprocess exit error. -/
inductive RerunError where
  | startFailed
  | scanFailed
  | coverParseFailed
  | coverRemoveFailed
  | abort (r : AbortReason)
  | exitErr (code : Nat)
  deriving DecidableEq

/-- Modelled from the spec: event delivery by testjson.ScanTestOutput (not
under src/): each decoded event first mutates the shared Execution, then is
handed to the configured handler. -/
def scanEvents : failureRecorder → Execution → List TestEvent → failureRecorder × Execution
  | r, exec, [] => (r, exec)
  | r, exec, ev :: rest =>
    let exec2 := Execution.add exec ev
    scanEvents (failureRecorder.Event r ev exec2) exec2 rest

/-- The state produced by the body of the rerun loop: the error that ended
it (none when it ran to completion), the Execution, the round's recorder
and the accumulated rerun profiles. -/
structure RoundOut where
  err : Option RerunError
  exec : Execution
  recorder : failureRecorder
  profiles : List CoverBlock
  deriving DecidableEq

/-- Model of one iteration of the inner loop of rerunFailed (src/cmd/
rerunfails.go lines 84-135): start the subprocess, scan its output into the
round recorder and the shared Execution, record a non-nil exit error as the
recorder's lastErr, then (when coverage is enabled) parse the temporary
profile, append it to the accumulated profiles and delete the file, and
finally classify the outcome with hasErrors; the first failing step ends
the session with its error. -/
def runOneInvocation (isCover : Bool) (oc : InvocationOutcome) (exec : Execution)
    (recorder : failureRecorder) (profiles : List CoverBlock) : RoundOut :=
  if oc.startErr then
    { err := some RerunError.startFailed, exec := exec, recorder := recorder, profiles := profiles }
  else
    let s := scanEvents recorder exec oc.events
    if oc.scanErr then
      { err := some RerunError.scanFailed, exec := s.2, recorder := s.1, profiles := profiles }
    else
      let rec2 := match oc.exitErr with
        | some c => { s.1 with lastErr := some c }
        | none => s.1
      if isCover then
        match oc.parsed with
        | none =>
          { err := some RerunError.coverParseFailed, exec := s.2, recorder := rec2,
            profiles := profiles }
        | some blocks =>
          if oc.removeOk then
            match hasErrors oc.exitErr s.2 with
            | some r =>
              { err := some (RerunError.abort r), exec := s.2, recorder := rec2,
                profiles := profiles ++ blocks }
            | none =>
              { err := none, exec := s.2, recorder := rec2, profiles := profiles ++ blocks }
          else
            { err := some RerunError.coverRemoveFailed, exec := s.2, recorder := rec2,
              profiles := profiles ++ blocks }
      else
        match hasErrors oc.exitErr s.2 with
        | some r =>
          { err := some (RerunError.abort r), exec := s.2, recorder := rec2,
            profiles := profiles }
        | none =>
          { err := none, exec := s.2, recorder := rec2, profiles := profiles }

/-- Model of the inner loop of rerunFailed over the filtered failing cases
of one round; the environment's outcome for the invocation at position i of
round `attempt` is `oracle attempt i`, abstracting the subprocess run with
the arguments built from the test case. -/
def runRound (isCover : Bool) (oracle : Nat → Nat → InvocationOutcome) (attempt : Nat) :
    List TestCase → Nat → Execution → failureRecorder → List CoverBlock → RoundOut
  | [], _, exec, recorder, profiles =>
    { err := none, exec := exec, recorder := recorder, profiles := profiles }
  | _tc :: rest, i, exec, recorder, profiles =>
    let r := runOneInvocation isCover (oracle attempt i) exec recorder profiles
    match r.err with
    | some _ => r
    | none => runRound isCover oracle attempt rest (i + 1) r.exec r.recorder r.profiles

/-- The state carried out of the attempt loop, with the number of completed
rounds. -/
structure LoopOut where
  err : Option RerunError
  exec : Execution
  recorder : failureRecorder
  profiles : List CoverBlock
  rounds : Nat
  deriving DecidableEq

/-- Model of the attempt loop of rerunFailed (lines 79-137): while the
current recorder holds failures and attempts remain, a fresh recorder
wrapping the same downstream handler collects the round's failures, and on
a clean round it becomes the recorder driving the next round.  `remaining`
is rerunFailsMaxAttempts minus the attempts already made. -/
def rerunLoop (isCover : Bool) (oracle : Nat → Nat → InvocationOutcome)
    (tcFilter : List TestCase → List TestCase) :
    Nat → Nat → Execution → failureRecorder → List CoverBlock → LoopOut
  | 0, attempt, exec, recorder, profiles =>
    { err := none, exec := exec, recorder := recorder, profiles := profiles, rounds := attempt }
  | remaining + 1, attempt, exec, recorder, profiles =>
    if failureRecorder.count recorder = 0 then
      { err := none, exec := exec, recorder := recorder, profiles := profiles, rounds := attempt }
    else
      let r := runRound isCover oracle attempt (tcFilter recorder.failures) 0 exec
        (newFailureRecorder recorder.handler) profiles
      match r.err with
      | some e =>
        { err := some e, exec := r.exec, recorder := r.recorder, profiles := r.profiles,
          rounds := attempt }
      | none => rerunLoop isCover oracle tcFilter remaining (attempt + 1) r.exec r.recorder r.profiles

/-- The observable result of a whole rerunFailed session: the returned
error, the merged coverage written to the main profile (none when Combine
was never reached or coverage is disabled), and the final loop state. -/
structure RerunResult where
  err : Option RerunError
  combined : Option (List CoverBlock)
  exec : Execution
  recorder : failureRecorder
  profiles : List CoverBlock
  rounds : Nat
  deriving DecidableEq

/-- Model of rerunFailed (src/cmd/rerunfails.go lines 66-147): seed the
recorder from the Execution's failures, run the attempt loop, and on any
error inside the loop return it at once, skipping the final Combine;
otherwise merge the accumulated profiles into the main profile (when
coverage is enabled) and return the final recorder's lastErr. -/
def rerunFailed (isCover : Bool) (mainProfile : List CoverBlock)
    (oracle : Nat → Nat → InvocationOutcome) (tcFilter : List TestCase → List TestCase)
    (maxAttempts : Nat) (exec : Execution) : RerunResult :=
  let out := rerunLoop isCover oracle tcFilter maxAttempts 0 exec
    (newFailureRecorderFromExecution exec) []
  match out.err with
  | some e =>
    { err := some e, combined := none, exec := out.exec, recorder := out.recorder,
      profiles := out.profiles, rounds := out.rounds }
  | none =>
    { err := Option.map RerunError.exitErr out.recorder.lastErr,
      combined := if isCover then some (Combine mainProfile out.profiles) else none,
      exec := out.exec, recorder := out.recorder, profiles := out.profiles,
      rounds := out.rounds }

/-- One line of the rerun-fails report: the report key and the total and
failed run counts. -/
structure ReportEntry where
  name : GoString
  total : Nat
  failed : Nat
  deriving DecidableEq

/-- The report key of a failure: its package, a dot, and its test name,
mirroring the name built by writeRerunFailsReport. -/
def reportName (failure : TestCase) : GoString :=
  failure.Package ++ '.' :: TestName.Name failure.Test

/-- Model of the accumulation loop of writeRerunFailsReport (src/cmd/
rerunfails.go lines 221-246): walk the Execution's failures, skip a failure
whose report name was already seen, and otherwise count the package's
failed and passed cases carrying exactly this test name (total counts
both, skipped cases are not counted). -/
def reportRows (exec : Execution) : List TestCase → List GoString → List ReportEntry
  | [], _ => []
  | failure :: rest, names =>
    let name := reportName failure
    if names.contains name then reportRows exec rest names
    else
      let pkg := Execution.Package exec failure.Package
      let failedCount := (pkg.Failed.filter (fun tc => tc.Test == failure.Test)).length
      let passedCount := (pkg.Passed.filter (fun tc => tc.Test == failure.Test)).length
      { name := name, total := failedCount + passedCount, failed := failedCount }
        :: reportRows exec rest (name :: names)

/-- How many rows of the report carry a given name. -/
def countName (rows : List ReportEntry) (n : GoString) : Nat :=
  (rows.filter (fun e => e.name == n)).length

/-- Byte-wise lexicographic order on strings, modelling the order used by
sort.Strings. -/
def lexLe : GoString → GoString → Bool
  | [], _ => true
  | _ :: _, [] => false
  | a :: as, b :: bs => if a = b then lexLe as bs else decide (a < b)

/-- Model of writeRerunFailsReport (src/cmd/rerunfails.go lines 211-259):
none when reruns were not requested or no report path is configured,
otherwise the rows of the report file, sorted by name; opening the file and
formatting each line are abstracted into the row list. -/
def writeRerunFailsReport (maxAttempts : Nat) (reportFile : GoString)
    (exec : Execution) : Option (List ReportEntry) :=
  if maxAttempts == 0 || reportFile.isEmpty then none
  else some (List.insertionSort (fun a b => lexLe a.name b.name = true)
    (reportRows exec (Execution.Failed exec) []))

/-- Folding a list of delivered events into the Execution aggregate. -/
def applyEvents (exec : Execution) (evs : List TestEvent) : Execution :=
  evs.foldl Execution.add exec

/-- The test cases a round's recorder accumulates from a stream of
delivered events: one looked-up last-failed case per non-package fail
event, evaluated against the Execution as it stands right after that event
is applied. -/
def failEventCases (exec : Execution) : List TestEvent → List TestCase
  | [] => []
  | ev :: rest =>
    let exec2 := Execution.add exec ev
    if !TestEvent.PackageEvent ev && ev.Action == GoAction.fail then
      GoPackage.LastFailedByName (Execution.Package exec2 ev.Package) ev.Test
        :: failEventCases exec2 rest
    else failEventCases exec2 rest

/-- The concatenation of the events the environment delivers for the n
consecutive invocations of one round starting at position i. -/
def deliveredEvents (oracle : Nat → Nat → InvocationOutcome) (attempt : Nat) :
    Nat → Nat → List TestEvent
  | _, 0 => []
  | i, n + 1 => (oracle attempt i).events ++ deliveredEvents oracle attempt (i + 1) n

/-- The last non-nil exit error among the n consecutive invocations of one
round starting at position i, on top of the value acc recorded before
them. -/
def roundLastExit (oracle : Nat → Nat → InvocationOutcome) (attempt : Nat) :
    Nat → Nat → Option Nat → Option Nat
  | _, 0, acc => acc
  | i, n + 1, acc =>
    roundLastExit oracle attempt (i + 1) n
      (match (oracle attempt i).exitErr with
        | some c => some c
        | none => acc)

/-- The literal string matched by a pattern fragment in which a backslash
escapes the following character; none when the fragment contains an
unescaped regular-expression metacharacter (and hence is not a pure
literal) or ends in a dangling backslash. -/
def patternLiteral : List Char → Option (List Char)
  | [] => some []
  | c :: rest =>
    if c = '\\' then
      match rest with
      | [] => none
      | d :: rest2 => Option.map (fun l => d :: l) (patternLiteral rest2)
    else if specialBytes.contains c then none
    else Option.map (fun l => c :: l) (patternLiteral rest)

/-! ### Helper lemmas about the recorder and the event stream -/

theorem Event_eq (r : failureRecorder) (ev : TestEvent) (exec : Execution) :
    failureRecorder.Event r ev exec =
      { handler := r.handler ++ [ev],
        failures := r.failures ++
          (if !TestEvent.PackageEvent ev && ev.Action == GoAction.fail then
            [GoPackage.LastFailedByName (Execution.Package exec ev.Package) ev.Test] else []),
        lastErr := r.lastErr } := by
  by_cases hc : (!TestEvent.PackageEvent ev && ev.Action == GoAction.fail) = true
  · simp [failureRecorder.Event, hc]
  · simp only [Bool.not_eq_true] at hc
    simp [failureRecorder.Event, hc]

theorem scanEvents_eq (evs : List TestEvent) : ∀ (r : failureRecorder) (exec : Execution),
    scanEvents r exec evs =
      ({ handler := r.handler ++ evs,
         failures := r.failures ++ failEventCases exec evs,
         lastErr := r.lastErr }, applyEvents exec evs) := by
  induction evs with
  | nil =>
    intro r exec
    simp [scanEvents, failEventCases, applyEvents]
  | cons ev rest ih =>
    intro r exec
    simp only [scanEvents]
    rw [ih, Event_eq]
    by_cases hc : (!TestEvent.PackageEvent ev && ev.Action == GoAction.fail) = true
    · simp [failEventCases, applyEvents, hc]
    · simp only [Bool.not_eq_true] at hc
      simp [failEventCases, applyEvents, hc]

theorem failEventCases_append (a : List TestEvent) : ∀ (exec : Execution) (b : List TestEvent),
    failEventCases exec (a ++ b)
      = failEventCases exec a ++ failEventCases (applyEvents exec a) b := by
  induction a with
  | nil => intro exec b; simp [failEventCases, applyEvents]
  | cons ev rest ih =>
    intro exec b
    by_cases hc : (!TestEvent.PackageEvent ev && ev.Action == GoAction.fail) = true
    · simp [failEventCases, applyEvents, hc, ih]
    · simp only [Bool.not_eq_true] at hc
      simp [failEventCases, applyEvents, hc, ih]

/-- The coverage blocks parsed by the n consecutive invocations of one
round starting at position i, in order. -/
def roundParsed (oracle : Nat → Nat → InvocationOutcome) (attempt : Nat) :
    Nat → Nat → List CoverBlock
  | _, 0 => []
  | i, n + 1 => Option.getD (oracle attempt i).parsed [] ++ roundParsed oracle attempt (i + 1) n

theorem runOneInvocation_ok (isCover : Bool) (oc : InvocationOutcome) (exec : Execution)
    (r : failureRecorder) (profiles : List CoverBlock)
    (h : (runOneInvocation isCover oc exec r profiles).err = none) :
    runOneInvocation isCover oc exec r profiles =
      { err := none,
        exec := applyEvents exec oc.events,
        recorder :=
          { handler := r.handler ++ oc.events,
            failures := r.failures ++ failEventCases exec oc.events,
            lastErr := match oc.exitErr with | some c => some c | none => r.lastErr },
        profiles := profiles ++ (if isCover then Option.getD oc.parsed [] else []) } := by
  rcases oc with ⟨se, evs, sce, ee, pr, rok⟩
  cases se <;> cases sce <;> cases ee <;> cases rok <;> cases isCover <;>
      rcases pr with _ | blocks <;>
      simp only [runOneInvocation, scanEvents_eq, Option.getD] at h ⊢ <;>
      first
        | rfl
        | ((simp at h); done)
        | ((repeat' split) <;> simp_all)

theorem cond_append_cond (c : Bool) (x y : List CoverBlock) :
    (if c then x else []) ++ (if c then y else []) = (if c then x ++ y else []) := by
  cases c <;> simp

theorem runRound_ok (isCover : Bool) (oracle : Nat → Nat → InvocationOutcome) (attempt : Nat)
    (tcs : List TestCase) : ∀ (i : Nat) (exec : Execution) (r : failureRecorder)
    (profiles : List CoverBlock),
    (runRound isCover oracle attempt tcs i exec r profiles).err = none →
    runRound isCover oracle attempt tcs i exec r profiles =
      { err := none,
        exec := applyEvents exec (deliveredEvents oracle attempt i tcs.length),
        recorder :=
          { handler := r.handler ++ deliveredEvents oracle attempt i tcs.length,
            failures := r.failures ++ failEventCases exec (deliveredEvents oracle attempt i tcs.length),
            lastErr := roundLastExit oracle attempt i tcs.length r.lastErr },
        profiles := profiles ++
          (if isCover then roundParsed oracle attempt i tcs.length else []) } := by
  induction tcs with
  | nil =>
    intro i exec r profiles _h
    simp [runRound, deliveredEvents, roundLastExit, roundParsed, failEventCases, applyEvents]
  | cons tc rest ih =>
    intro i exec r profiles h
    rcases hE : (runOneInvocation isCover (oracle attempt i) exec r profiles).err with _ | e
    · have hinv := runOneInvocation_ok isCover (oracle attempt i) exec r profiles hE
      simp only [runRound] at h ⊢
      rw [hinv] at h ⊢
      simp only [] at h ⊢
      rw [ih _ _ _ _ h]
      simp only [List.length_cons, deliveredEvents, roundLastExit, roundParsed,
        failEventCases_append, applyEvents, List.foldl_append, List.append_assoc,
        cond_append_cond]
    · exfalso
      simp only [runRound, hE] at h
      exact Option.noConfusion h

theorem rerunLoop_rounds_le (isCover : Bool) (oracle : Nat → Nat → InvocationOutcome)
    (tcf : List TestCase → List TestCase) :
    ∀ (remaining attempt : Nat) (exec : Execution) (r : failureRecorder)
      (profiles : List CoverBlock),
    (rerunLoop isCover oracle tcf remaining attempt exec r profiles).rounds
      ≤ attempt + remaining := by
  intro remaining
  induction remaining with
  | zero =>
    intro attempt exec r profiles
    simp [rerunLoop]
  | succ n ih =>
    intro attempt exec r profiles
    simp only [rerunLoop]
    by_cases hc : failureRecorder.count r = 0
    · simp [hc]
    · simp only [hc, if_false]
      rcases hE : (runRound isCover oracle attempt (tcf r.failures) 0 exec
          (newFailureRecorder r.handler) profiles).err with _ | e
      · simp only [hE]
        exact le_trans (ih (attempt + 1) _ _ _) (by omega)
      · simp only [hE]
        omega

theorem rerunLoop_stops (isCover : Bool) (oracle : Nat → Nat → InvocationOutcome)
    (tcf : List TestCase → List TestCase) (remaining attempt : Nat) (exec : Execution)
    (r : failureRecorder) (profiles : List CoverBlock)
    (hc : failureRecorder.count r = 0) :
    rerunLoop isCover oracle tcf remaining attempt exec r profiles =
      { err := none, exec := exec, recorder := r, profiles := profiles, rounds := attempt } := by
  cases remaining with
  | zero => rfl
  | succ n => simp [rerunLoop, hc]

theorem rerunFailed_rounds_eq (isCover : Bool) (main : List CoverBlock)
    (oracle : Nat → Nat → InvocationOutcome) (tcf : List TestCase → List TestCase)
    (maxAttempts : Nat) (exec : Execution) :
    (rerunFailed isCover main oracle tcf maxAttempts exec).rounds
      = (rerunLoop isCover oracle tcf maxAttempts 0 exec
          (newFailureRecorderFromExecution exec) []).rounds := by
  rcases hE : (rerunLoop isCover oracle tcf maxAttempts 0 exec
      (newFailureRecorderFromExecution exec) []).err with _ | e <;>
    simp [rerunFailed, hE]

/-! ### Concrete scenario: initial failures A and B, A passes on round one,
B fails again on round one and passes on round two -/

/-- The package name used by the concrete rerun scenarios. -/
def pkgP : GoString := [ 'p' ]

/-- Failing test case A of the concrete scenario. -/
def tcA : TestCase := { Package := pkgP, Test := [ 'T', 'A' ] }

/-- Failing test case B of the concrete scenario. -/
def tcB : TestCase := { Package := pkgP, Test := [ 'T', 'B' ] }

/-- The Execution left by the initial run of the concrete scenario: A and B
recorded as failed, no protocol errors, no suspected panic. -/
def scenExec : Execution :=
  { packages := [(pkgP, { Failed := [tcA, tcB], Passed := [] })]
    errors := []
    panicked := false }

/-- A pass event for the given test in the scenario package. -/
def passEv (t : TestName) : TestEvent := { Package := pkgP, Test := t, Action := GoAction.pass }

/-- A fail event for the given test in the scenario package. -/
def failEv (t : TestName) : TestEvent := { Package := pkgP, Test := t, Action := GoAction.fail }

/-- A clean invocation outcome: started, no events, clean exit, empty
parsed profile, successful delete. -/
def cleanOutcome : InvocationOutcome :=
  { startErr := false, events := [], scanErr := false, exitErr := none,
    parsed := some [], removeOk := true }

/-- The environment of the concrete scenario: in round 0 the invocation for
A passes and the invocation for B fails again with exit code 1; in round 1
the single invocation for B passes. -/
def scenOracle : Nat → Nat → InvocationOutcome
  | 0, 0 => { cleanOutcome with events := [passEv tcA.Test] }
  | 0, 1 => { cleanOutcome with events := [failEv tcB.Test], exitErr := some 1 }
  | 1, 0 => { cleanOutcome with events := [passEv tcB.Test] }
  | _, _ => cleanOutcome

/-! ### Splitting and joining of slash-separated test names -/

theorem splitOnAux_no_sep (sep : Char) : ∀ (s : List Char), sep ∉ s →
    ∀ acc : List Char, splitOnAux sep s acc = [acc.reverse ++ s] := by
  intro s
  induction s with
  | nil => intro _ acc; simp [splitOnAux]
  | cons c cs ih =>
    intro hs acc
    have hne : ¬ (c = sep) := by
      intro he
      subst he
      exact hs (List.mem_cons_self c cs)
    simp only [splitOnAux, if_neg hne]
    rw [ih (fun hm => hs (List.mem_cons_of_mem c hm)) (c :: acc)]
    simp

theorem splitOnAux_sep (sep : Char) : ∀ (s : List Char), sep ∉ s →
    ∀ (t acc : List Char),
    splitOnAux sep (s ++ sep :: t) acc = (acc.reverse ++ s) :: splitOnAux sep t [] := by
  intro s
  induction s with
  | nil => intro _ t acc; simp [splitOnAux]
  | cons c cs ih =>
    intro hs t acc
    have hne : ¬ (c = sep) := by
      intro he
      subst he
      exact hs (List.mem_cons_self c cs)
    simp only [List.cons_append, splitOnAux, if_neg hne, List.append_eq]
    rw [ih (fun hm => hs (List.mem_cons_of_mem c hm)) t (c :: acc)]
    simp

theorem splitOn_joinSlash : ∀ (parts : List GoString), parts ≠ [] →
    (∀ p ∈ parts, ('/' : Char) ∉ p) →
    splitOn '/' (joinSlash parts) = parts := by
  intro parts
  induction parts with
  | nil => intro h _; exact absurd rfl h
  | cons p rest ih =>
    intro _ hall
    cases rest with
    | nil =>
      simp only [joinSlash, splitOn]
      rw [splitOnAux_no_sep '/' p (hall p (by simp)) []]
      simp
    | cons q rest2 =>
      simp only [joinSlash, splitOn]
      rw [splitOnAux_sep '/' p (hall p (by simp)) (joinSlash (q :: rest2)) []]
      have hrec := ih (by simp) (fun x hx => hall x (List.mem_cons_of_mem p hx))
      simp only [splitOn] at hrec
      rw [hrec]
      simp

/-- The round trip of quoteMeta: the pattern fragment it builds is a pure
literal matching exactly the input string. -/
theorem patternLiteral_quoteMeta : ∀ s : List Char, patternLiteral (quoteMeta s) = some s := by
  intro s
  induction s with
  | nil => rfl
  | cons c cs ih =>
    simp only [quoteMeta] at ih ⊢
    simp only [List.elem_eq_mem, decide_eq_true_eq] at ih ⊢
    by_cases hm : c ∈ specialBytes
    · simp [patternLiteral, hm, ih]
    · have hne : ¬ (c = '\\') := by
        intro he
        subst he
        exact hm (by decide)
      rw [patternLiteral.eq_def]
      simp [List.elem_eq_mem, decide_eq_true_eq, hm, hne, ih]

/-! ### Claim theorems: the run-flag builder -/

/-- C3 counterexample: for the subtest name "TestFoo/bar baz" the builder
yields the flag with the space NOT escaped, contradicting the claimed
output pattern with an escaped space (Go regexp.QuoteMeta does not treat
the space as a metacharacter). -/
theorem runflag_space_counterexample :
    goTestRunFlagForTestCase ("TestFoo/bar baz".data) = ("-test.run=^TestFoo$/^bar baz$").data
  ∧ goTestRunFlagForTestCase ("TestFoo/bar baz".data)
      ≠ ("-test.run=^TestFoo$/^bar\\ baz$").data := by
  exact ⟨by decide, by decide⟩

/-- C3 (amended): the run-flag builder anchors a root name as
caret-escaped-name-dollar, and anchors each slash-separated segment of a
subtest name independently, each segment escaped by quoteMeta, joined by
slashes; the escaping covers exactly the Go regular-expression
metacharacters, which do not include the space, so "TestFoo/bar baz"
yields the flag for pattern caret TestFoo dollar slash caret bar baz
dollar, with the space unescaped. -/
theorem runflag_per_segment_anchored :
    (∀ s : TestName, s.contains '/' = false →
        goTestRunFlagForTestCase s = "-test.run=^".data ++ quoteMeta s ++ [ '$' ])
  ∧ goTestRunFlagForTestCase ("TestFoo".data) = ("-test.run=^TestFoo$").data
  ∧ (∀ parts : List GoString, 2 ≤ parts.length → (∀ p ∈ parts, ('/' : Char) ∉ p) →
        goTestRunFlagForTestCase (joinSlash parts)
          = "-test.run=".data ++ joinSlash (parts.map anchorSegment))
  ∧ goTestRunFlagForTestCase ("TestFoo/bar baz".data)
      = ("-test.run=^TestFoo$/^bar baz$").data := by
  refine ⟨?_, by decide, ?_, by decide⟩
  · intro s hs
    have hns : ('/' : Char) ∉ s := by simpa using hs
    simp [goTestRunFlagForTestCase, TestName.IsSubTest, hns, TestName.Name]
  · intro parts h2 hall
    have hsub : TestName.IsSubTest (joinSlash parts) = true := by
      rcases parts with _ | ⟨p, _ | ⟨q, rest⟩⟩
      · simp at h2
      · simp at h2
      · simp [joinSlash, TestName.IsSubTest]
    have hne : parts ≠ [] := by
      intro he
      rw [he] at h2
      simp at h2
    simp only [goTestRunFlagForTestCase, hsub, if_true]
    rw [splitOn_joinSlash parts hne hall]

/-- Witness for runflag_per_segment_anchored at the two-segment name
"TestFoo/bar baz". -/
theorem runflag_per_segment_anchored_witness :
    2 ≤ ([ "TestFoo".data, "bar baz".data ] : List GoString).length ∧
    goTestRunFlagForTestCase (joinSlash [ "TestFoo".data, "bar baz".data ])
      = "-test.run=".data ++ joinSlash ([ "TestFoo".data, "bar baz".data ].map anchorSegment) :=
  ⟨by decide, runflag_per_segment_anchored.2.2.1 [ "TestFoo".data, "bar baz".data ]
    (by decide) (by decide)⟩

/-- C10: root names are regex-escaped as well: "TestFoo.Bar" yields the
anchored flag with the dot escaped, and in general the pattern body built
for any root name is the quoteMeta escape of the name, a pure literal
fragment matching exactly that name. -/
theorem runflag_root_escaped_literal :
    goTestRunFlagForTestCase ("TestFoo.Bar".data) = ("-test.run=^TestFoo\\.Bar$").data
  ∧ (∀ s : TestName, s.contains '/' = false →
      goTestRunFlagForTestCase s = "-test.run=^".data ++ quoteMeta s ++ [ '$' ]
        ∧ patternLiteral (quoteMeta s) = some s) := by
  refine ⟨by decide, ?_⟩
  intro s hs
  have hns : ('/' : Char) ∉ s := by simpa using hs
  exact ⟨by simp [goTestRunFlagForTestCase, TestName.IsSubTest, hns, TestName.Name],
    patternLiteral_quoteMeta s⟩

/-- Witness for runflag_root_escaped_literal at the root name
"TestFoo.Bar". -/
theorem runflag_root_escaped_literal_witness :
    ("TestFoo.Bar".data : List Char).contains '/' = false ∧
    patternLiteral (quoteMeta ("TestFoo.Bar".data)) = some ("TestFoo.Bar".data) :=
  ⟨by decide, (runflag_root_escaped_literal.2 ("TestFoo.Bar".data) (by decide)).2⟩

/-! ### Claim theorems: the outcome classifier -/

/-- The empty Execution used by classifier witnesses: no packages, no
protocol errors, no suspected panic. -/
def cleanExec : Execution := { packages := [], errors := [], panicked := false }

/-- C2: hasErrors returns an abort error iff the Execution has recorded
protocol errors, or the normalized exit code (nil treated as 0) exceeds 1,
or a panic is suspected; it returns none for exit codes 0 and 1 with no
protocol errors and no suspected panic; and the three rules are applied in
exactly that order, the first matching rule deciding the result. -/
theorem hasErrors_classifier (err : Option Nat) (exec : Execution) :
    (hasErrors err exec ≠ none ↔
      (0 < (Execution.Errors exec).length ∨ 1 < ExitCodeWithDefault err ∨
        Execution.HasPanic exec = true))
  ∧ (0 < (Execution.Errors exec).length → hasErrors err exec = some AbortReason.priorErrors)
  ∧ ((Execution.Errors exec).length = 0 → 1 < ExitCodeWithDefault err →
      hasErrors err exec = some AbortReason.unexpectedExitCode)
  ∧ ((Execution.Errors exec).length = 0 → ExitCodeWithDefault err ≤ 1 →
      Execution.HasPanic exec = true → hasErrors err exec = some AbortReason.suspectedPanic)
  ∧ ((Execution.Errors exec).length = 0 → ExitCodeWithDefault err ≤ 1 →
      Execution.HasPanic exec = false → hasErrors err exec = none) := by
  refine ⟨?_, ?_, ?_, ?_, ?_⟩
  · unfold hasErrors
    split_ifs with h1 h2 h3 <;> simp_all
  · intro h1
    unfold hasErrors
    split_ifs <;> simp_all
  · intro h1 h2
    unfold hasErrors
    split_ifs <;> simp_all
  · intro h1 h2 h3
    unfold hasErrors
    split_ifs <;> simp_all <;> omega
  · intro h1 h2 h3
    unfold hasErrors
    split_ifs <;> simp_all <;> omega

/-- Witness for hasErrors_classifier: exit code 2 with a clean Execution
aborts with the unexpected-exit-code error. -/
theorem hasErrors_classifier_witness :
    (Execution.Errors cleanExec).length = 0 ∧ 1 < ExitCodeWithDefault (some 2) ∧
      hasErrors (some 2) cleanExec = some AbortReason.unexpectedExitCode :=
  ⟨by decide, by decide,
    (hasErrors_classifier (some 2) cleanExec).2.2.1 (by decide) (by decide)⟩

/-! ### Claim theorems: the failure recorder -/

/-- C7: the recorder appends the package's last-failed case exactly when
the received event is a non-package event with the fail action, leaves the
failure list unchanged otherwise, never touches lastErr, and forwards every
received event unchanged to the wrapped downstream handler. -/
theorem failureRecorder_Event_appends_and_forwards (r : failureRecorder) (ev : TestEvent)
    (exec : Execution) :
    ((failureRecorder.Event r ev exec).handler = r.handler ++ [ev])
  ∧ ((failureRecorder.Event r ev exec).lastErr = r.lastErr)
  ∧ (TestEvent.PackageEvent ev = false → ev.Action = GoAction.fail →
      (failureRecorder.Event r ev exec).failures
        = r.failures ++ [GoPackage.LastFailedByName (Execution.Package exec ev.Package) ev.Test])
  ∧ (TestEvent.PackageEvent ev = true ∨ ev.Action ≠ GoAction.fail →
      (failureRecorder.Event r ev exec).failures = r.failures) := by
  rw [Event_eq]
  refine ⟨rfl, rfl, ?_, ?_⟩
  · intro h1 h2
    simp [h1, h2]
  · intro h
    rcases h with h | h
    · simp [h]
    · simp [h]

/-- Witness for failureRecorder_Event_appends_and_forwards: a fail event
for test B in the scenario package appends tcB to the failure list. -/
theorem failureRecorder_Event_appends_and_forwards_witness :
    TestEvent.PackageEvent (failEv tcB.Test) = false ∧
    (failureRecorder.Event (newFailureRecorder []) (failEv tcB.Test) scenExec).failures
      = (newFailureRecorder []).failures ++
          [GoPackage.LastFailedByName (Execution.Package scenExec pkgP) tcB.Test] :=
  ⟨by decide,
    (failureRecorder_Event_appends_and_forwards (newFailureRecorder []) (failEv tcB.Test)
      scenExec).2.2.1 (by decide) (by decide)⟩

/-! ### Claim theorems: the attempt loop -/

/-- C1: when a round of the rerun loop completes without a fatal error, the
loop drives the next round with exactly the recorder that round produced,
and that recorder's failure list is exactly the sequence of last-failed
test cases appended for the non-package fail events delivered during the
round: the failing set driving round n+1 is precisely the set observed
failing during round n, never a superset. -/
theorem rerun_next_round_failing_set (isCover : Bool)
    (oracle : Nat → Nat → InvocationOutcome) (tcf : List TestCase → List TestCase)
    (remaining attempt : Nat) (exec : Execution) (r : failureRecorder)
    (profiles : List CoverBlock)
    (hcount : failureRecorder.count r ≠ 0)
    (hok : (runRound isCover oracle attempt (tcf r.failures) 0 exec
        (newFailureRecorder r.handler) profiles).err = none) :
    rerunLoop isCover oracle tcf (remaining + 1) attempt exec r profiles
      = rerunLoop isCover oracle tcf remaining (attempt + 1)
          (runRound isCover oracle attempt (tcf r.failures) 0 exec
            (newFailureRecorder r.handler) profiles).exec
          (runRound isCover oracle attempt (tcf r.failures) 0 exec
            (newFailureRecorder r.handler) profiles).recorder
          (runRound isCover oracle attempt (tcf r.failures) 0 exec
            (newFailureRecorder r.handler) profiles).profiles
    ∧ (runRound isCover oracle attempt (tcf r.failures) 0 exec
          (newFailureRecorder r.handler) profiles).recorder.failures
        = failEventCases exec
            (deliveredEvents oracle attempt 0 (tcf r.failures).length) := by
  constructor
  · simp only [rerunLoop, hcount, if_false, hok]
  · rw [runRound_ok isCover oracle attempt (tcf r.failures) 0 exec
      (newFailureRecorder r.handler) profiles hok]
    simp [newFailureRecorder]

/-- Witness for rerun_next_round_failing_set on the concrete scenario
round 0. -/
theorem rerun_next_round_failing_set_witness :
    failureRecorder.count (newFailureRecorderFromExecution scenExec) ≠ 0 ∧
    (runRound false scenOracle 0
        (rerunFailsFilter false (newFailureRecorderFromExecution scenExec).failures) 0 scenExec
        (newFailureRecorder (newFailureRecorderFromExecution scenExec).handler) []).recorder.failures
      = failEventCases scenExec (deliveredEvents scenOracle 0 0
          (rerunFailsFilter false (newFailureRecorderFromExecution scenExec).failures).length) :=
  ⟨by decide,
    (rerun_next_round_failing_set false scenOracle (rerunFailsFilter false) 2 0 scenExec
      (newFailureRecorderFromExecution scenExec) [] (by decide) (by decide)).2⟩

/-- C6: the rerun loop performs at most rerunFailsMaxAttempts rounds, stops
at once when the failing set is empty, and on the concrete scenario (A and
B fail initially, A passes and B fails in round one, B passes in round two,
maxAttempts three) performs exactly two rounds and returns a nil error. -/
theorem rerun_bounded_rounds_and_scenario :
    (∀ (isCover : Bool) (main : List CoverBlock) (oracle : Nat → Nat → InvocationOutcome)
        (tcf : List TestCase → List TestCase) (maxAttempts : Nat) (exec : Execution),
        (rerunFailed isCover main oracle tcf maxAttempts exec).rounds ≤ maxAttempts)
  ∧ (∀ (isCover : Bool) (oracle : Nat → Nat → InvocationOutcome)
        (tcf : List TestCase → List TestCase) (remaining attempt : Nat) (exec : Execution)
        (r : failureRecorder) (profiles : List CoverBlock),
        failureRecorder.count r = 0 →
        (rerunLoop isCover oracle tcf remaining attempt exec r profiles).rounds = attempt)
  ∧ (rerunFailed false [] scenOracle (rerunFailsFilter false) 3 scenExec).rounds = 2
  ∧ (rerunFailed false [] scenOracle (rerunFailsFilter false) 3 scenExec).err = none := by
  refine ⟨?_, ?_, by decide, by decide⟩
  · intro isCover main oracle tcf maxAttempts exec
    rw [rerunFailed_rounds_eq]
    have := rerunLoop_rounds_le isCover oracle tcf maxAttempts 0 exec
      (newFailureRecorderFromExecution exec) []
    omega
  · intro isCover oracle tcf remaining attempt exec r profiles hc
    rw [rerunLoop_stops isCover oracle tcf remaining attempt exec r profiles hc]

/-- Witness for rerun_bounded_rounds_and_scenario: an empty failing set
performs no further rounds. -/
theorem rerun_bounded_rounds_and_scenario_witness :
    failureRecorder.count (newFailureRecorder []) = 0 ∧
    (rerunLoop false scenOracle (rerunFailsFilter false) 2 5 scenExec
      (newFailureRecorder []) []).rounds = 5 :=
  ⟨by decide,
    rerun_bounded_rounds_and_scenario.2.1 false scenOracle (rerunFailsFilter false) 2 5 scenExec
      (newFailureRecorder []) [] (by decide)⟩

/-! ### Claim theorems: coverage temporary-file deletion failure -/

/-- A single coverage block used by the deletion-failure scenario. -/
def c4Block : CoverBlock :=
  { key := { fileName := [ 'f' ], startLine := 1, startCol := 1, endLine := 2, endCol := 1 },
    numStmt := 1, count := 1 }

/-- The environment of the deletion-failure scenario: every invocation
scans no events, exits cleanly, parses one coverage block, and then fails
to delete the temporary profile file. -/
def c4Oracle : Nat → Nat → InvocationOutcome
  | _, _ =>
    { startErr := false, events := [], scanErr := false, exitErr := none,
      parsed := some [c4Block], removeOk := false }

/-- C4 counterexample: with coverage enabled and a failing deletion of the
temporary profile, the profile has already been parsed into the in-memory
accumulator, yet rerunFailed returns the deletion error and the merge into
the main coverage file never happens: combined is none, contradicting the
claim that the session's accumulated coverage is still merged. -/
theorem rerun_remove_failure_counterexample :
    (rerunFailed true [] c4Oracle (rerunFailsFilter false) 3 scenExec).profiles = [c4Block]
  ∧ (rerunFailed true [] c4Oracle (rerunFailsFilter false) 3 scenExec).err
      = some RerunError.coverRemoveFailed
  ∧ (rerunFailed true [] c4Oracle (rerunFailsFilter false) 3 scenExec).combined = none := by
  exact ⟨by decide, by decide, by decide⟩

/-- C4 (amended): when deleting a rerun invocation's temporary coverage
profile fails, the already-parsed profile is retained in the in-memory
accumulator and the failure is reported as a fatal session error, but the
session aborts before the final Combine, so the accumulated coverage is
not merged into the main coverage file. -/
theorem rerun_remove_failure_aborts (main : List CoverBlock)
    (oracle : Nat → Nat → InvocationOutcome) (tcf : List TestCase → List TestCase)
    (maxAttempts : Nat) (exec : Execution) (blocks : List CoverBlock)
    (hmax : maxAttempts ≠ 0)
    (hcount : failureRecorder.count (newFailureRecorderFromExecution exec) ≠ 0)
    (hne : tcf (newFailureRecorderFromExecution exec).failures ≠ [])
    (hstart : (oracle 0 0).startErr = false)
    (hscan : (oracle 0 0).scanErr = false)
    (hparse : (oracle 0 0).parsed = some blocks)
    (hrem : (oracle 0 0).removeOk = false) :
    (rerunFailed true main oracle tcf maxAttempts exec).err = some RerunError.coverRemoveFailed
  ∧ (rerunFailed true main oracle tcf maxAttempts exec).combined = none
  ∧ (rerunFailed true main oracle tcf maxAttempts exec).profiles = blocks := by
  rcases Nat.exists_eq_succ_of_ne_zero hmax with ⟨m, rfl⟩
  rcases List.exists_cons_of_ne_nil hne with ⟨tc, rest, htc⟩
  have herr : (runOneInvocation true (oracle 0 0) exec
      (newFailureRecorder (newFailureRecorderFromExecution exec).handler) []).err
        = some RerunError.coverRemoveFailed := by
    simp [runOneInvocation, hstart, hscan, hparse, hrem]
  have hprof : (runOneInvocation true (oracle 0 0) exec
      (newFailureRecorder (newFailureRecorderFromExecution exec).handler) []).profiles
        = blocks := by
    simp [runOneInvocation, hstart, hscan, hparse, hrem]
  have hround : runRound true oracle 0 (tc :: rest) 0 exec
      (newFailureRecorder (newFailureRecorderFromExecution exec).handler) []
        = runOneInvocation true (oracle 0 0) exec
            (newFailureRecorder (newFailureRecorderFromExecution exec).handler) [] := by
    simp only [runRound, herr]
  have hloop : rerunLoop true oracle tcf (m + 1) 0 exec (newFailureRecorderFromExecution exec) []
      = { err := some RerunError.coverRemoveFailed,
          exec := (runOneInvocation true (oracle 0 0) exec
            (newFailureRecorder (newFailureRecorderFromExecution exec).handler) []).exec,
          recorder := (runOneInvocation true (oracle 0 0) exec
            (newFailureRecorder (newFailureRecorderFromExecution exec).handler) []).recorder,
          profiles := (runOneInvocation true (oracle 0 0) exec
            (newFailureRecorder (newFailureRecorderFromExecution exec).handler) []).profiles,
          rounds := 0 } := by
    simp only [rerunLoop, hcount, if_false, htc, hround, herr]
  refine ⟨?_, ?_, ?_⟩
  · simp only [rerunFailed, hloop]
  · simp only [rerunFailed, hloop]
  · simp only [rerunFailed, hloop, hprof]

/-- Witness for rerun_remove_failure_aborts on the concrete
deletion-failure scenario. -/
theorem rerun_remove_failure_aborts_witness :
    (3 : Nat) ≠ 0 ∧
    (rerunFailed true [] c4Oracle (rerunFailsFilter false) 3 scenExec).combined = none :=
  ⟨by decide,
    (rerun_remove_failure_aborts [] c4Oracle (rerunFailsFilter false) 3 scenExec [c4Block]
      (by decide) (by decide) (by decide) (by decide) (by decide) (by decide) (by decide)).2.1⟩

/-! ### Claim theorems: the surfaced last exit error -/

/-- C5: the session surfaces the final round's last recorded exit error:
every fresh recorder starts with no recorded error, a completed round's
recorder holds exactly the last non-nil exit error of that round's
invocations (unchanged when every invocation exits cleanly), and on a clean
loop exit rerunFailed returns precisely the final recorder's lastErr, so
the error of an earlier round is never returned and a session with no
rerun invocations returns nil. -/
theorem rerun_returns_last_exit_error :
    (∀ h : List TestEvent, (newFailureRecorder h).lastErr = none)
  ∧ (∀ exec : Execution, (newFailureRecorderFromExecution exec).lastErr = none)
  ∧ (∀ (isCover : Bool) (oracle : Nat → Nat → InvocationOutcome) (attempt : Nat)
        (tcs : List TestCase) (i : Nat) (exec : Execution) (r : failureRecorder)
        (profiles : List CoverBlock),
        (runRound isCover oracle attempt tcs i exec r profiles).err = none →
        (runRound isCover oracle attempt tcs i exec r profiles).recorder.lastErr
          = roundLastExit oracle attempt i tcs.length r.lastErr)
  ∧ (∀ (oracle : Nat → Nat → InvocationOutcome) (attempt n : Nat), ∀ (i : Nat) (acc : Option Nat),
        (∀ j, j < n → (oracle attempt (i + j)).exitErr = none) →
        roundLastExit oracle attempt i n acc = acc)
  ∧ (∀ (isCover : Bool) (main : List CoverBlock) (oracle : Nat → Nat → InvocationOutcome)
        (tcf : List TestCase → List TestCase) (maxAttempts : Nat) (exec : Execution),
        (rerunLoop isCover oracle tcf maxAttempts 0 exec
          (newFailureRecorderFromExecution exec) []).err = none →
        (rerunFailed isCover main oracle tcf maxAttempts exec).err
          = Option.map RerunError.exitErr
              (rerunLoop isCover oracle tcf maxAttempts 0 exec
                (newFailureRecorderFromExecution exec) []).recorder.lastErr) := by
  refine ⟨fun h => rfl, fun exec => rfl, ?_, ?_, ?_⟩
  · intro isCover oracle attempt tcs i exec r profiles hok
    rw [runRound_ok isCover oracle attempt tcs i exec r profiles hok]
  · intro oracle attempt n
    induction n with
    | zero => intro i acc _; rfl
    | succ k ih =>
      intro i acc hall
      simp only [roundLastExit]
      have h0 : (oracle attempt i).exitErr = none := by
        have := hall 0 (Nat.succ_pos k)
        simpa using this
      rw [h0]
      refine ih (i + 1) acc (fun j hj => ?_)
      have h2 := hall (j + 1) (by omega)
      have h3 : i + (j + 1) = i + 1 + j := by omega
      rw [h3] at h2
      exact h2
  · intro isCover main oracle tcf maxAttempts exec hloop
    simp [rerunFailed, hloop]

/-- Witness for rerun_returns_last_exit_error on the concrete scenario:
the clean session surfaces the final recorder's lastErr. -/
theorem rerun_returns_last_exit_error_witness :
    (rerunLoop false scenOracle (rerunFailsFilter false) 3 0 scenExec
      (newFailureRecorderFromExecution scenExec) []).err = none ∧
    (rerunFailed false [] scenOracle (rerunFailsFilter false) 3 scenExec).err
      = Option.map RerunError.exitErr
          (rerunLoop false scenOracle (rerunFailsFilter false) 3 0 scenExec
            (newFailureRecorderFromExecution scenExec) []).recorder.lastErr :=
  ⟨by decide,
    rerun_returns_last_exit_error.2.2.2.2 false [] scenOracle (rerunFailsFilter false) 3 scenExec
      (by decide)⟩

/-! ### Coverage merge lemmas -/

theorem keyCount_nil (k : BlockKey) : keyCount [] k = 0 := rfl

theorem keyMult_nil (k : BlockKey) : keyMult [] k = 0 := rfl

theorem keyCount_cons (b : CoverBlock) (bs : List CoverBlock) (k : BlockKey) :
    keyCount (b :: bs) k = (if b.key = k then b.count else 0) + keyCount bs k := by
  by_cases hb : b.key = k <;> simp [keyCount, List.filter_cons, hb]

theorem keyMult_cons (b : CoverBlock) (bs : List CoverBlock) (k : BlockKey) :
    keyMult (b :: bs) k = (if b.key = k then 1 else 0) + keyMult bs k := by
  by_cases hb : b.key = k <;> simp [keyMult, List.filter_cons, hb, Nat.add_comm]

theorem keyCount_append (a c : List CoverBlock) (k : BlockKey) :
    keyCount (a ++ c) k = keyCount a k + keyCount c k := by
  simp [keyCount, List.filter_append]

theorem keyMult_append (a c : List CoverBlock) (k : BlockKey) :
    keyMult (a ++ c) k = keyMult a k + keyMult c k := by
  simp [keyMult, List.filter_append]

theorem keyCount_zero_of_mult_zero : ∀ (bs : List CoverBlock) (k : BlockKey),
    keyMult bs k = 0 → keyCount bs k = 0 := by
  intro bs k
  induction bs with
  | nil => intro _; rfl
  | cons b rest ih =>
    intro h
    rw [keyMult_cons] at h
    rw [keyCount_cons]
    by_cases hb : b.key = k
    · simp [hb] at h
    · simp [hb] at h ⊢
      exact ih h

theorem mult_pos_of_mem (b : CoverBlock) (bs : List CoverBlock) (h : b ∈ bs) :
    1 ≤ keyMult bs b.key := by
  have hf : b ∈ bs.filter (fun x => x.key == b.key) :=
    List.mem_filter.2 ⟨h, by simp⟩
  have := List.length_pos_of_mem hf
  simpa [keyMult] using this

theorem upd_key_eq (y x : CoverBlock) :
    (if x.key == y.key then { x with count := x.count + y.count } else x).key = x.key := by
  by_cases hx : x.key = y.key <;> simp [hx]

theorem keyMult_map_upd (y : CoverBlock) (k : BlockKey) : ∀ acc : List CoverBlock,
    keyMult (acc.map (fun x =>
        if x.key == y.key then { x with count := x.count + y.count } else x)) k
      = keyMult acc k := by
  intro acc
  induction acc with
  | nil => rfl
  | cons x rest ih =>
    rw [List.map_cons, keyMult_cons, keyMult_cons, ih, upd_key_eq]

theorem keyCount_map_upd_ne (y : CoverBlock) (k : BlockKey) (hk : ¬ k = y.key) :
    ∀ acc : List CoverBlock,
    keyCount (acc.map (fun x =>
        if x.key == y.key then { x with count := x.count + y.count } else x)) k
      = keyCount acc k := by
  intro acc
  induction acc with
  | nil => rfl
  | cons x rest ih =>
    rw [List.map_cons, keyCount_cons, keyCount_cons, ih, upd_key_eq]
    by_cases hxk : x.key = k
    · have hx : ¬ x.key = y.key := by
        intro he
        exact hk (hxk ▸ he)
      have hcond : ¬ ((x.key == y.key) = true) := by simp [hx]
      rw [if_neg hcond]
    · rw [if_neg hxk, if_neg hxk]

theorem keyCount_map_upd_self (y : CoverBlock) : ∀ acc : List CoverBlock,
    keyMult acc y.key = 1 →
    keyCount (acc.map (fun x =>
        if x.key == y.key then { x with count := x.count + y.count } else x)) y.key
      = keyCount acc y.key + y.count := by
  intro acc
  induction acc with
  | nil => intro h; simp [keyMult_nil] at h
  | cons x rest ih =>
    intro h
    rw [keyMult_cons] at h
    rw [List.map_cons, keyCount_cons, keyCount_cons, upd_key_eq]
    by_cases hx : x.key = y.key
    · have hcond : (x.key == y.key) = true := by simp [hx]
      rw [if_pos hx] at h
      have hrest : keyMult rest y.key = 0 := by omega
      have hz : keyCount rest y.key = 0 := keyCount_zero_of_mult_zero rest y.key hrest
      have hz2 : keyCount (rest.map (fun x =>
          if x.key == y.key then { x with count := x.count + y.count } else x)) y.key = 0 := by
        apply keyCount_zero_of_mult_zero
        rw [keyMult_map_upd]
        exact hrest
      rw [if_pos hx, if_pos hx, if_pos hcond, hz, hz2]
      show x.count + y.count + 0 = x.count + 0 + y.count
      omega
    · rw [if_neg hx] at h
      have hrest : keyMult rest y.key = 1 := by omega
      rw [if_neg hx, if_neg hx, ih hrest]
      omega

theorem any_key_iff_mult (b : CoverBlock) : ∀ acc : List CoverBlock,
    (acc.any (fun x => x.key == b.key)) = true ↔ 1 ≤ keyMult acc b.key := by
  intro acc
  induction acc with
  | nil => simp [keyMult_nil]
  | cons x rest ih =>
    by_cases hx : x.key = b.key <;>
      simp [List.any_cons, hx, keyMult_cons, ih] <;> omega

theorem keyMult_combineInto (b : CoverBlock) (k : BlockKey) (acc : List CoverBlock) :
    keyMult (combineInto acc b) k
      = if k = b.key then max (keyMult acc b.key) 1 else keyMult acc k := by
  unfold combineInto
  by_cases hp : (acc.any (fun x => x.key == b.key)) = true
  · rw [if_pos hp, keyMult_map_upd]
    have h1 := (any_key_iff_mult b acc).1 hp
    by_cases hk : k = b.key
    · subst hk
      rw [if_pos rfl]
      omega
    · rw [if_neg hk]
  · rw [if_neg hp]
    have h0 : keyMult acc b.key = 0 := by
      rcases Nat.eq_zero_or_pos (keyMult acc b.key) with h | h
      · exact h
      · exact absurd ((any_key_iff_mult b acc).2 h) hp
    rw [keyMult_append]
    by_cases hk : k = b.key
    · subst hk
      simp [keyMult_cons, keyMult_nil, h0]
    · have hbk : ¬ b.key = k := fun he => hk he.symm
      simp [keyMult_cons, keyMult_nil, hk, hbk]

theorem keyCount_combineInto (b : CoverBlock) (k : BlockKey) (acc : List CoverBlock)
    (hu : keyMult acc b.key ≤ 1) :
    keyCount (combineInto acc b) k
      = keyCount acc k + (if k = b.key then b.count else 0) := by
  unfold combineInto
  by_cases hp : (acc.any (fun x => x.key == b.key)) = true
  · rw [if_pos hp]
    have h1 : keyMult acc b.key = 1 :=
      Nat.le_antisymm hu ((any_key_iff_mult b acc).1 hp)
    by_cases hk : k = b.key
    · subst hk
      rw [keyCount_map_upd_self b acc h1]
      simp
    · rw [keyCount_map_upd_ne b k hk acc]
      simp [hk]
  · rw [if_neg hp, keyCount_append]
    by_cases hk : k = b.key
    · subst hk
      simp [keyCount_cons, keyCount_nil]
    · have hbk : ¬ b.key = k := fun he => hk he.symm
      simp [keyCount_cons, keyCount_nil, hk, hbk]

theorem foldl_combineInto_spec (l : List CoverBlock) : ∀ acc : List CoverBlock,
    (∀ k, keyMult acc k ≤ 1) →
    (∀ k, keyMult (l.foldl combineInto acc) k ≤ 1)
  ∧ (∀ k, keyCount (l.foldl combineInto acc) k = keyCount acc k + keyCount l k)
  ∧ (∀ k, keyMult (l.foldl combineInto acc) k
        = if 1 ≤ keyMult acc k ∨ 1 ≤ keyMult l k then 1 else 0) := by
  induction l with
  | nil =>
    intro acc hu
    refine ⟨hu, fun k => by simp [keyCount_nil], fun k => ?_⟩
    simp only [List.foldl_nil, keyMult_nil]
    have := hu k
    by_cases h : 1 ≤ keyMult acc k <;> simp [h] <;> omega
  | cons b rest ih =>
    intro acc hu
    have hu2 : ∀ k, keyMult (combineInto acc b) k ≤ 1 := by
      intro k
      rw [keyMult_combineInto]
      by_cases hk : k = b.key
      · rw [if_pos hk]
        exact max_le (hu b.key) le_rfl
      · rw [if_neg hk]
        exact hu k
    obtain ⟨g1, g2, g3⟩ := ih (combineInto acc b) hu2
    refine ⟨g1, fun k => ?_, fun k => ?_⟩
    · rw [List.foldl_cons, g2 k, keyCount_combineInto b k acc (hu b.key), keyCount_cons]
      by_cases hk : k = b.key
      · subst hk
        have hbk : b.key = b.key := rfl
        simp [hbk]
        omega
      · have hbk : ¬ b.key = k := fun he => hk he.symm
        simp [hk, hbk]
    · rw [List.foldl_cons, g3 k, keyMult_combineInto, keyMult_cons]
      by_cases hk : k = b.key
      · subst hk
        simp
      · have hbk : ¬ b.key = k := fun he => hk he.symm
        simp [hk, hbk]

theorem mem_combineInto_of_ne (acc : List CoverBlock) (y b : CoverBlock)
    (hmem : b ∈ acc) (hne : ¬ y.key = b.key) : b ∈ combineInto acc y := by
  unfold combineInto
  by_cases hp : (acc.any (fun x => x.key == y.key)) = true
  · rw [if_pos hp]
    refine List.mem_map.2 ⟨b, hmem, ?_⟩
    have hbk : ¬ b.key = y.key := fun he => hne he.symm
    simp [hbk]
  · rw [if_neg hp]
    exact List.mem_append_left _ hmem

theorem mem_foldl_of_no_key : ∀ (l acc : List CoverBlock) (b : CoverBlock),
    b ∈ acc → keyMult l b.key = 0 → b ∈ l.foldl combineInto acc := by
  intro l
  induction l with
  | nil => intro acc b hmem _; simpa using hmem
  | cons y rest ih =>
    intro acc b hmem hmult
    rw [keyMult_cons] at hmult
    by_cases hy : y.key = b.key
    · simp [hy] at hmult
    · simp only [hy, if_false, Nat.zero_add] at hmult
      rw [List.foldl_cons]
      exact ih (combineInto acc y) b (mem_combineInto_of_ne acc y b hmem hy) hmult

theorem mem_foldl_combineInto : ∀ (l acc : List CoverBlock) (b : CoverBlock),
    b ∈ l → keyMult l b.key = 1 → keyMult acc b.key = 0 →
    b ∈ l.foldl combineInto acc := by
  intro l
  induction l with
  | nil => intro acc b h; simp at h
  | cons x rest ih =>
    intro acc b hmem hmult hacc
    rw [keyMult_cons] at hmult
    rcases List.mem_cons.1 hmem with rfl | hmem2
    · have hrest : keyMult rest b.key = 0 := by
        simp at hmult
        omega
      have hstep : combineInto acc b = acc ++ [b] := by
        unfold combineInto
        rw [if_neg]
        intro hp
        have := (any_key_iff_mult b acc).1 hp
        omega
      rw [List.foldl_cons, hstep]
      exact mem_foldl_of_no_key rest (acc ++ [b]) b
        (List.mem_append_right acc (List.mem_singleton.2 rfl)) hrest
    · have hx : ¬ x.key = b.key := by
        intro he
        have h1 := mult_pos_of_mem b rest hmem2
        simp [he] at hmult
        omega
      simp only [hx, if_false, Nat.zero_add] at hmult
      rw [List.foldl_cons]
      refine ih (combineInto acc x) b hmem2 hmult ?_
      rw [keyMult_combineInto]
      have hbx : ¬ b.key = x.key := fun he => hx he.symm
      simp [hbx, hacc]

/-! ### Claim theorems: coverage merging -/

/-- The shared-key block with count 3 of the concrete merge example. -/
def blk3 : CoverBlock :=
  { key := { fileName := [ 'g' ], startLine := 3, startCol := 1, endLine := 4, endCol := 2 },
    numStmt := 2, count := 3 }

/-- The shared-key block with count 5 of the concrete merge example. -/
def blk5 : CoverBlock :=
  { key := { fileName := [ 'g' ], startLine := 3, startCol := 1, endLine := 4, endCol := 2 },
    numStmt := 2, count := 5 }

/-- A block whose key appears in no other profile. -/
def blkU : CoverBlock :=
  { key := { fileName := [ 'h' ], startLine := 9, startCol := 1, endLine := 9, endCol := 5 },
    numStmt := 1, count := 7 }

/-- C8 (Combine modelled from the spec): merging sums execution counts per
block key: the merged profile's count for every key is the sum of that
key's counts across the main profile and all rerun profiles, each key
present in any input appears exactly once in the result, a block whose key
occurs exactly once passes through unchanged, and the concrete 3-plus-5
example merges to count 8 while a unique block is passed through. -/
theorem Combine_sums_counts :
    (∀ main extra : List CoverBlock, ∀ k,
        keyCount (Combine main extra) k = keyCount (main ++ extra) k)
  ∧ (∀ main extra : List CoverBlock, ∀ k,
        1 ≤ keyMult (main ++ extra) k → keyMult (Combine main extra) k = 1)
  ∧ (∀ main extra : List CoverBlock, ∀ b : CoverBlock, b ∈ main ++ extra →
        keyMult (main ++ extra) b.key = 1 → b ∈ Combine main extra)
  ∧ keyCount (Combine [blk3] [blk5]) blk3.key = 8
  ∧ Combine [blkU, blk3] [blk5] = [blkU, { blk3 with count := 8 }] := by
  have hnil : ∀ k : BlockKey, keyMult ([] : List CoverBlock) k ≤ 1 := by
    intro k
    simp [keyMult_nil]
  refine ⟨?_, ?_, ?_, by decide, by decide⟩
  · intro main extra k
    have := (foldl_combineInto_spec (main ++ extra) [] hnil).2.1 k
    simpa [Combine, keyCount_nil] using this
  · intro main extra k hpos
    have := (foldl_combineInto_spec (main ++ extra) [] hnil).2.2 k
    simp only [Combine]
    rw [this]
    simp [keyMult_nil, hpos]
  · intro main extra b hmem hmult
    exact mem_foldl_combineInto (main ++ extra) [] b hmem hmult (keyMult_nil b.key)

/-- Witness for Combine_sums_counts on the concrete shared-key example. -/
theorem Combine_sums_counts_witness :
    1 ≤ keyMult ([blk3] ++ [blk5]) blk3.key ∧
    keyMult (Combine [blk3] [blk5]) blk3.key = 1 :=
  ⟨by decide, Combine_sums_counts.2.1 [blk3] [blk5] blk3.key (by decide)⟩

/-! ### Report lemmas -/

theorem countName_nil (n : GoString) : countName [] n = 0 := rfl

theorem countName_cons (e : ReportEntry) (rows : List ReportEntry) (n : GoString) :
    countName (e :: rows) n = (if e.name = n then 1 else 0) + countName rows n := by
  by_cases he : e.name = n <;> simp [countName, List.filter_cons, he, Nat.add_comm]

theorem reportRows_names (exec : Execution) : ∀ (fs : List TestCase) (seen : List GoString),
    (∀ n, n ∈ seen → countName (reportRows exec fs seen) n = 0)
  ∧ (∀ n, countName (reportRows exec fs seen) n ≤ 1)
  ∧ (∀ f ∈ fs, reportName f ∈ seen ∨ countName (reportRows exec fs seen) (reportName f) = 1)
  ∧ (∀ e ∈ reportRows exec fs seen, e.failed ≤ e.total) := by
  intro fs
  induction fs with
  | nil =>
    intro seen
    refine ⟨fun n _ => rfl, fun n => ?_, by simp, by simp [reportRows]⟩
    simp [reportRows, countName_nil]
  | cons f rest ih =>
    intro seen
    by_cases hm : (seen.contains (reportName f)) = true
    · have hmm : reportName f ∈ seen := by simpa using hm
      obtain ⟨i1, i2, i3, i4⟩ := ih seen
      have hred : reportRows exec (f :: rest) seen = reportRows exec rest seen := by
        simp only [reportRows]
        rw [if_pos hm]
      rw [hred]
      refine ⟨i1, i2, ?_, i4⟩
      intro g hg
      rcases List.mem_cons.1 hg with rfl | hg2
      · exact Or.inl hmm
      · exact i3 g hg2
    · have hnm : reportName f ∉ seen := by simpa using hm
      obtain ⟨i1, i2, i3, i4⟩ := ih (reportName f :: seen)
      have hred : reportRows exec (f :: rest) seen
          = { name := reportName f,
              total := ((Execution.Package exec f.Package).Failed.filter
                  (fun tc => tc.Test == f.Test)).length +
                ((Execution.Package exec f.Package).Passed.filter
                  (fun tc => tc.Test == f.Test)).length,
              failed := ((Execution.Package exec f.Package).Failed.filter
                  (fun tc => tc.Test == f.Test)).length }
            :: reportRows exec rest (reportName f :: seen) := by
        simp only [reportRows]
        rw [if_neg hm]
      rw [hred]
      have hz : countName (reportRows exec rest (reportName f :: seen)) (reportName f) = 0 :=
        i1 (reportName f) (List.mem_cons_self _ _)
      refine ⟨?_, ?_, ?_, ?_⟩
      · intro n hn
        have hne : ¬ (reportName f = n) := by
          intro he
          exact hnm (he ▸ hn)
        rw [countName_cons]
        simp only [hne, if_false, Nat.zero_add]
        exact i1 n (List.mem_cons_of_mem _ hn)
      · intro n
        rw [countName_cons]
        by_cases he : reportName f = n
        · subst he
          rw [hz]
          simp
        · simp only [he, if_false, Nat.zero_add]
          exact i2 n
      · intro g hg
        rcases List.mem_cons.1 hg with rfl | hg2
        · refine Or.inr ?_
          rw [countName_cons]
          simp [hz]
        · rcases i3 g hg2 with hseen | hone
          · rcases List.mem_cons.1 hseen with he | hseen2
            · refine Or.inr ?_
              rw [countName_cons, he]
              simp [hz]
            · exact Or.inl hseen2
          · refine Or.inr ?_
            have hne : ¬ (reportName f = reportName g) := by
              intro he
              rw [← he] at hone
              rw [hz] at hone
              exact Nat.noConfusion hone
            rw [countName_cons]
            simp only [hne, if_false, Nat.zero_add]
            exact hone
      · intro e he
        rcases List.mem_cons.1 he with rfl | he2
        · simp
        · exact i4 e he2

/-! ### Claim theorems: the rerun-fails report -/

/-- The colliding failure (package p, test q.r) of the report
counterexample. -/
def c9tc1 : TestCase := { Package := [ 'p' ], Test := [ 'q', '.', 'r' ] }

/-- The colliding failure (package p.q, test r) of the report
counterexample. -/
def c9tc2 : TestCase := { Package := [ 'p', '.', 'q' ], Test := [ 'r' ] }

/-- An Execution whose two failures are distinct (package, test) keys with
the same concatenated report name. -/
def c9exec : Execution :=
  { packages := [([ 'p' ], { Failed := [c9tc1], Passed := [] }),
                 ([ 'p', '.', 'q' ], { Failed := [c9tc2], Passed := [] })]
    errors := []
    panicked := false }

/-- C9 counterexample: the report deduplicates by the concatenated string
package dot testname, so the two distinct (package, test) keys (p, q.r)
and (p.q, r) collide to the single name p.q.r and yield one single report
row; the second distinct key never appears with its own entry, refuting
the claim that every distinct (package, test) key appears exactly once. -/
theorem rerun_report_key_collision :
    c9tc1 ≠ c9tc2
  ∧ Execution.Failed c9exec = [c9tc1, c9tc2]
  ∧ reportName c9tc1 = reportName c9tc2
  ∧ writeRerunFailsReport 3 [ 'r' ] c9exec
      = some [ { name := [ 'p', '.', 'q', '.', 'r' ], total := 1, failed := 1 } ] := by
  exact ⟨by decide, by decide, by decide, by decide⟩

/-- C9 (amended): every distinct report name (package, dot, test name)
among the final execution's failures appears exactly once in the written
report, first occurrence winning and later failures with the same name
skipped (including distinct (package, test) keys whose concatenated names
collide), and every reported entry's total run count is at least its
failed run count. -/
theorem rerun_report_unique_names (maxAttempts : Nat) (reportFile : GoString)
    (exec : Execution) (rows : List ReportEntry)
    (h : writeRerunFailsReport maxAttempts reportFile exec = some rows) :
    (∀ n, countName rows n ≤ 1)
  ∧ (∀ f ∈ Execution.Failed exec, countName rows (reportName f) = 1)
  ∧ (∀ e ∈ rows, e.failed ≤ e.total) := by
  unfold writeRerunFailsReport at h
  by_cases hc : (maxAttempts == 0 || reportFile.isEmpty) = true
  · rw [if_pos hc] at h
    exact Option.noConfusion h
  · rw [if_neg hc] at h
    have hrows : rows = List.insertionSort (fun a b => lexLe a.name b.name = true)
        (reportRows exec (Execution.Failed exec) []) := (Option.some.inj h).symm
    have hperm : List.Perm rows (reportRows exec (Execution.Failed exec) []) := by
      rw [hrows]
      exact List.perm_insertionSort _ _
    obtain ⟨i1, i2, i3, i4⟩ := reportRows_names exec (Execution.Failed exec) []
    have hcnt : ∀ n, countName rows n
        = countName (reportRows exec (Execution.Failed exec) []) n := by
      intro n
      unfold countName
      exact (hperm.filter _).length_eq
    refine ⟨?_, ?_, ?_⟩
    · intro n
      rw [hcnt]
      exact i2 n
    · intro f hf
      rw [hcnt]
      rcases i3 f hf with hmem | hone
      · simp at hmem
      · exact hone
    · intro e he
      exact i4 e (hperm.mem_iff.1 he)

/-- Witness for rerun_report_unique_names on the two-failure scenario
Execution. -/
theorem rerun_report_unique_names_witness :
    writeRerunFailsReport 3 [ 'r' ] scenExec
        = some ((writeRerunFailsReport 3 [ 'r' ] scenExec).getD []) ∧
    (∀ e ∈ (writeRerunFailsReport 3 [ 'r' ] scenExec).getD [], e.failed ≤ e.total) :=
  ⟨by decide,
    (rerun_report_unique_names 3 [ 'r' ] scenExec
      ((writeRerunFailsReport 3 [ 'r' ] scenExec).getD []) (by decide)).2.2⟩

end GoTestSum
